import Mathlib

/-!
Shallow embedding of the NoteKeeper database layer: the `db` CRUD object
(post/get/update/delete over notebooks and notes backed by a JSON blob in
local storage) together with its identity and lookup helpers from
`Assets/JS/utils.js`.

Wall-clock time (used by `generateID` and `postedOn`) is threaded as an
explicit `now : Nat` parameter.  JavaScript array mutation is rendered as
pure list transformation; a JS call that would throw a TypeError (lookup on
`undefined`) is rendered as `Option.none` with the store left unchanged,
since the write-back never runs after a throw.
-/

namespace NoteKeeper

/-- A note record: `{ id, notebookId, title, text, postedOn }`. -/
structure Note where
  id : String
  notebookId : String
  title : String
  text : String
  postedOn : Nat
deriving DecidableEq, Repr

/-- A notebook record: `{ id, name, notes }`. -/
structure Notebook where
  id : String
  name : String
  notes : List Note
deriving DecidableEq, Repr

/-- The root store: `{ notebooks: [...] }`, the unit of persistence. -/
structure Store where
  notebooks : List Notebook
deriving DecidableEq, Repr

/-- The store created by `initDB` when local storage is empty. -/
def emptyStore : Store := ⟨[]⟩

/-- `generateID`: the current timestamp rendered as a string. -/
def generateID (now : Nat) : String := toString now

/-- `findNotebook`: first notebook whose `id` equals `notebookId`. -/
def findNotebook (db : Store) (notebookId : String) : Option Notebook :=
  db.notebooks.find? (fun nb => nb.id == notebookId)

/-- JS `Array.prototype.findIndex`: index of the first match, `-1` if none. -/
def findIdxJS (p : α → Bool) (l : List α) : Int :=
  match l.findIdx? p with
  | some i => (i : Int)
  | none => -1

/-- `findNotebookIndex`: index of the first notebook with the given id, `-1` if absent. -/
def findNotebookIndex (db : Store) (notebookId : String) : Int :=
  findIdxJS (fun item => item.id == notebookId) db.notebooks

/-- `findNote`: scan notebooks in order, return the first note with the given id. -/
def findNoteInNbs : List Notebook → String → Option Note
  | [], _ => none
  | nb :: rest, noteId =>
    match nb.notes.find? (fun note => note.id == noteId) with
    | some note => some note
    | none => findNoteInNbs rest noteId

/-- `findNote` on the store. -/
def findNote (db : Store) (noteId : String) : Option Note :=
  findNoteInNbs db.notebooks noteId

/-- `findNoteIndex`: index of the note with the given id in a notebook, `-1` if absent. -/
def findNoteIndex (notebook : Notebook) (noteId : String) : Int :=
  findIdxJS (fun note => note.id == noteId) notebook.notes

/-- JS `splice(start, 1)` start clamping: negative `start` counts from the end. -/
def spliceStart (len : Nat) (i : Int) : Nat :=
  if i < 0 then ((len : Int) + i).toNat else min i.toNat len

/-- JS `arr.splice(i, 1)` as a pure function: remove (at most) one element at
the clamped start position. -/
def spliceRemove1 (l : List α) (i : Int) : List α :=
  let s := spliceStart l.length i
  l.take s ++ l.drop (s + 1)

/-- The `{title, text}` object handed to `db.post.note` by the note modal. -/
structure NoteFields where
  title : String
  text : String
deriving DecidableEq, Repr

/-- The note object built by `db.post.note`:
`{ id: generateID(), notebookId, ...object, postedOn: now }`. -/
def mkNote (now : Nat) (notebookId : String) (object : NoteFields) : Note :=
  ⟨generateID now, notebookId, object.title, object.text, now⟩

/-- `db.post.notebook(name)`: push a fresh notebook; return it. -/
def postNotebook (now : Nat) (name : String) (s : Store) : Store × Notebook :=
  let notebookData : Notebook := ⟨generateID now, name, []⟩
  (⟨s.notebooks ++ [notebookData]⟩, notebookData)

/-- `notebook?.notes.unshift(noteData)`: prepend the note to the first
notebook matching the id; if none matches, the list is unchanged. -/
def unshiftNote : List Notebook → String → Note → List Notebook
  | [], _, _ => []
  | nb :: rest, nid, n =>
    if nb.id == nid then { nb with notes := n :: nb.notes } :: rest
    else nb :: unshiftNote rest nid n

/-- `db.post.note(notebookId, object)`: build the note, prepend it to the
found notebook (optional chaining makes an absent notebook a silent no-op on
the store), and unconditionally return the built note (`some` models the JS
function always returning `noteData`, never `undefined`). -/
def postNote (now : Nat) (notebookId : String) (object : NoteFields) (s : Store) :
    Store × Option Note :=
  let noteData := mkNote now notebookId object
  (⟨unshiftNote s.notebooks notebookId noteData⟩, some noteData)

/-- `db.get.notebook()`: the store's notebook list. -/
def getNotebooks (s : Store) : List Notebook := s.notebooks

/-- `db.get.note(notebookId)`: the found notebook's notes;
`none` models the TypeError thrown when the notebook is absent. -/
def getNote (s : Store) (notebookId : String) : Option (List Note) :=
  (findNotebook s notebookId).map Notebook.notes

/-- `notebook.name = name` on the first matching notebook;
also returns the updated notebook (`none` models the thrown TypeError). -/
def renameInList : List Notebook → String → String → List Notebook × Option Notebook
  | [], _, _ => ([], none)
  | nb :: rest, nid, name =>
    if nb.id == nid then
      (({ nb with name := name }) :: rest, some { nb with name := name })
    else
      let r := renameInList rest nid name
      (nb :: r.1, r.2)

/-- `db.update.notebook(notebookId, name)`. -/
def updateNotebook (notebookId name : String) (s : Store) : Store × Option Notebook :=
  let r := renameInList s.notebooks notebookId name
  (⟨r.1⟩, r.2)

/-- The partial `{title?, text?}` object handed to `db.update.note`. -/
structure NotePatch where
  title : Option String
  text : Option String
deriving DecidableEq, Repr

/-- `Object.assign(oldNote, object)`: fields present in the patch overwrite
the note's fields; absent fields are kept. -/
def assignNote (n : Note) (p : NotePatch) : Note :=
  { n with title := p.title.getD n.title, text := p.text.getD n.text }

/-- In-place assign on the first note of a list matching the id; `none` when
no note matches. -/
def assignInNotes : List Note → String → NotePatch → Option (List Note × Note)
  | [], _, _ => none
  | n :: rest, nid, p =>
    if n.id == nid then some (assignNote n p :: rest, assignNote n p)
    else
      match assignInNotes rest nid p with
      | some r => some (n :: r.1, r.2)
      | none => none

/-- In-place assign on the first matching note across the notebooks. -/
def assignInNbs : List Notebook → String → NotePatch → List Notebook × Option Note
  | [], _, _ => ([], none)
  | nb :: rest, nid, p =>
    match assignInNotes nb.notes nid p with
    | some r => ({ nb with notes := r.1 } :: rest, some r.2)
    | none =>
      let r := assignInNbs rest nid p
      (nb :: r.1, r.2)

/-- `db.update.note(noteId, object)`: `Object.assign` onto the note found by
`findNote`; `none` models the TypeError thrown when the note is absent. -/
def updateNote (noteId : String) (p : NotePatch) (s : Store) : Store × Option Note :=
  let r := assignInNbs s.notebooks noteId p
  (⟨r.1⟩, r.2)

/-- `db.delete.notebook(notebookId)`:
`notebooks.splice(findNotebookIndex(db, notebookId), 1)`. -/
def deleteNotebook (notebookId : String) (s : Store) : Store :=
  ⟨spliceRemove1 s.notebooks (findNotebookIndex s notebookId)⟩

/-- Overwrite the notes of the first notebook matching the id (the in-place
mutation `notebook.notes.splice(...)` seen from the store). -/
def setNotes : List Notebook → String → List Note → List Notebook
  | [], _, _ => []
  | nb :: rest, nid, notes =>
    if nb.id == nid then { nb with notes := notes } :: rest
    else nb :: setNotes rest nid notes

/-- `db.delete.note(notebookId, noteId)`: splice out the found index from the
found notebook's notes and return the remaining notes; `none` models the
TypeError thrown when the notebook is absent. -/
def deleteNote (notebookId noteId : String) (s : Store) : Store × Option (List Note) :=
  match findNotebook s notebookId with
  | none => (s, none)
  | some nb =>
    let notes := spliceRemove1 nb.notes (findNoteIndex nb noteId)
    (⟨setNotes s.notebooks notebookId notes⟩, some notes)

/-- One `db` mutation, for reasoning about operation sequences. -/
inductive Op where
  | postNotebookOp (now : Nat) (name : String)
  | postNoteOp (now : Nat) (notebookId : String) (object : NoteFields)
  | updateNotebookOp (notebookId name : String)
  | updateNoteOp (noteId : String) (p : NotePatch)
  | deleteNotebookOp (notebookId : String)
  | deleteNoteOp (notebookId noteId : String)
deriving DecidableEq, Repr

/-- Apply one `db` mutation to the store (return values discarded). -/
def applyOp (s : Store) (op : Op) : Store :=
  match op with
  | .postNotebookOp now name => (postNotebook now name s).1
  | .postNoteOp now nid obj => (postNote now nid obj s).1
  | .updateNotebookOp nid name => (updateNotebook nid name s).1
  | .updateNoteOp nid p => (updateNote nid p s).1
  | .deleteNotebookOp nid => deleteNotebook nid s
  | .deleteNoteOp nbid nid => (deleteNote nbid nid s).1

/-- Run a sequence of `db` mutations starting from the empty store. -/
def applyOps (ops : List Op) : Store := ops.foldl applyOp emptyStore

/-- Referential-integrity invariant: every note sits in the notebook its
`notebookId` names. -/
def notesLinked (s : Store) : Prop :=
  ∀ nb ∈ s.notebooks, ∀ n ∈ nb.notes, n.notebookId = nb.id

instance : DecidablePred notesLinked := fun s => by
  unfold notesLinked; infer_instance

/-- JSON values, the image of `JSON.stringify` on plain data
(string keys in insertion order, which `JSON.parse` preserves). -/
inductive J where
  | str : String → J
  | num : Nat → J
  | arr : List J → J
  | obj : List (String × J) → J

/-- `JSON.stringify` of a note, at the level of JSON values. -/
def encodeNote (n : Note) : J :=
  .obj [("id", .str n.id), ("notebookId", .str n.notebookId),
        ("title", .str n.title), ("text", .str n.text),
        ("postedOn", .num n.postedOn)]

/-- `JSON.parse` of a serialized note. -/
def decodeNote : J → Option Note
  | .obj [("id", .str i), ("notebookId", .str nb), ("title", .str t),
          ("text", .str x), ("postedOn", .num p)] => some ⟨i, nb, t, x, p⟩
  | _ => none

/-- `JSON.parse` of a serialized note array. -/
def decodeNotes : List J → Option (List Note)
  | [] => some []
  | j :: rest =>
    match decodeNote j, decodeNotes rest with
    | some n, some l => some (n :: l)
    | _, _ => none

/-- `JSON.stringify` of a notebook. -/
def encodeNotebook (nb : Notebook) : J :=
  .obj [("id", .str nb.id), ("name", .str nb.name),
        ("notes", .arr (nb.notes.map encodeNote))]

/-- `JSON.parse` of a serialized notebook. -/
def decodeNotebook : J → Option Notebook
  | .obj [("id", .str i), ("name", .str nm), ("notes", .arr js)] =>
    (decodeNotes js).map (fun l => ⟨i, nm, l⟩)
  | _ => none

/-- `JSON.parse` of a serialized notebook array. -/
def decodeNotebooks : List J → Option (List Notebook)
  | [] => some []
  | j :: rest =>
    match decodeNotebook j, decodeNotebooks rest with
    | some nb, some l => some (nb :: l)
    | _, _ => none

/-- `writeDB`: `JSON.stringify(noteKeeperDB)`, at the level of JSON values. -/
def encodeStore (s : Store) : J :=
  .obj [("notebooks", .arr (s.notebooks.map encodeNotebook))]

/-- `readDB`: `JSON.parse(localStorage.getItem("noteKeeperDB"))`. -/
def decodeStore : J → Option Store
  | .obj [("notebooks", .arr js)] => (decodeNotebooks js).map Store.mk
  | _ => none

/-! ### Lemmas about `findIndex` and `splice` -/

theorem findIdxJS_of_all_false (p : α → Bool) (l : List α)
    (h : ∀ x ∈ l, p x = false) : findIdxJS p l = -1 := by
  unfold findIdxJS
  rw [List.findIdx?_eq_none_iff.mpr h]

theorem spliceRemove1_neg_one (l : List α) : spliceRemove1 l (-1) = l.dropLast := by
  cases l with
  | nil => rfl
  | cons a t =>
    unfold spliceRemove1 spliceStart
    simp only [List.length_cons]
    rw [if_pos (by omega : (-1 : Int) < 0)]
    have h2 : (((t.length + 1 : Nat) : Int) + (-1)).toNat = t.length := by omega
    rw [h2, List.dropLast_eq_take]
    have h3 : List.drop (t.length + 1) (a :: t) = [] := List.drop_length (a :: t)
    have h4 : (a :: t).length - 1 = t.length := by simp
    rw [h3, List.append_nil, h4]

theorem spliceRemove1_cons_zero (a : α) (l : List α) :
    spliceRemove1 (a :: l) 0 = l := by
  simp [spliceRemove1, spliceStart]

theorem spliceRemove1_cons_succ (a : α) (l : List α) (i : Nat) :
    spliceRemove1 (a :: l) ((i : Int) + 1) = a :: spliceRemove1 l (i : Int) := by
  unfold spliceRemove1 spliceStart
  rw [if_neg (by omega : ¬ ((i : Int) + 1 < 0)), if_neg (by omega : ¬ ((i : Int) < 0))]
  have h2 : ((i : Int) + 1).toNat = i + 1 := by omega
  have h3 : ((i : Int)).toNat = i := by omega
  rw [h2, h3]
  simp only [List.length_cons, Nat.succ_min_succ]
  rw [List.take_succ_cons, List.drop_succ_cons]
  rfl

theorem spliceRemove1_subset (l : List α) (i : Int) : spliceRemove1 l i ⊆ l := by
  unfold spliceRemove1
  intro x hx
  rcases List.mem_append.mp hx with h | h
  · exact List.take_subset _ _ h
  · exact List.drop_subset _ _ h

/-- Removing the element at the first matching index from a list holding
exactly one match: length drops by one and no match remains. -/
theorem countP_removeFirst (p : α → Bool) :
    ∀ l : List α, l.countP p = 1 →
      (spliceRemove1 l (findIdxJS p l)).length + 1 = l.length ∧
      (spliceRemove1 l (findIdxJS p l)).countP p = 0 := by
  intro l
  induction l with
  | nil => intro h; simp at h
  | cons a t ih =>
    intro h
    by_cases hpa : p a = true
    · have hidx : findIdxJS p (a :: t) = 0 := by
        unfold findIdxJS
        rw [List.findIdx?_cons, if_pos hpa]
        simp
      have ht : t.countP p = 0 := by
        rw [List.countP_cons, if_pos hpa] at h; omega
      rw [hidx, spliceRemove1_cons_zero]
      exact ⟨by simp, ht⟩
    · have hpa' : p a = false := by simpa using hpa
      have ht : t.countP p = 1 := by
        rw [List.countP_cons, hpa'] at h; simpa using h
      obtain ⟨i, hi⟩ : ∃ i, List.findIdx? p t 0 = some i := by
        rcases h' : List.findIdx? p t 0 with _ | i
        · exfalso
          have hz : t.countP p = 0 := by
            apply List.countP_eq_zero.mpr
            intro x hx
            simp [List.findIdx?_eq_none_iff.mp h' x hx]
          omega
        · exact ⟨i, rfl⟩
      have hidxt : findIdxJS p t = (i : Int) := by
        unfold findIdxJS; rw [hi]
      have hidx : findIdxJS p (a :: t) = (i : Int) + 1 := by
        unfold findIdxJS
        rw [List.findIdx?_cons, if_neg hpa, List.findIdx?_succ, hi]
        simp
      obtain ⟨ihl, ihc⟩ := ih ht
      rw [hidx, spliceRemove1_cons_succ, ← hidxt]
      constructor
      · simp only [List.length_cons]
        omega
      · rw [List.countP_cons, hpa']
        simpa using ihc

/-! ### Lemmas about the lookup helpers and the list mutations -/

theorem findNotebookIndex_of_absent (s : Store) (nid : String)
    (h : findNotebook s nid = none) : findNotebookIndex s nid = -1 := by
  unfold findNotebook at h
  unfold findNotebookIndex
  apply findIdxJS_of_all_false
  intro x hx
  have hx' := List.find?_eq_none.mp h x hx
  simpa using hx'

theorem unshiftNote_absent (l : List Notebook) (nid : String) (n : Note)
    (h : ∀ nb ∈ l, ¬ nb.id = nid) : unshiftNote l nid n = l := by
  induction l with
  | nil => rfl
  | cons a t ih =>
    unfold unshiftNote
    rw [if_neg (by simpa using h a (List.mem_cons_self a t))]
    rw [ih (fun nb hnb => h nb (List.mem_cons_of_mem a hnb))]

theorem find?_unshiftNote (l : List Notebook) (nid : String) (n : Note) (nb : Notebook)
    (h : l.find? (fun b => b.id == nid) = some nb) :
    (unshiftNote l nid n).find? (fun b => b.id == nid) =
      some { nb with notes := n :: nb.notes } := by
  induction l with
  | nil => simp at h
  | cons a t ih =>
    by_cases ha : (a.id == nid) = true
    · have hnb : nb = a := by
        rw [List.find?_cons_of_pos (p := fun b => b.id == nid) t ha] at h
        exact (Option.some_inj.mp h).symm
      unfold unshiftNote
      rw [if_pos ha]
      rw [List.find?_cons_of_pos _ (by simpa using ha), hnb]
    · rw [List.find?_cons_of_neg (p := fun b => b.id == nid) t ha] at h
      unfold unshiftNote
      rw [if_neg ha]
      rw [List.find?_cons_of_neg (p := fun b : Notebook => b.id == nid) _ ha]
      exact ih h

theorem findNotebook_postNote (s : Store) (now : Nat) (nid : String)
    (obj : NoteFields) (nb : Notebook) (h : findNotebook s nid = some nb) :
    findNotebook (postNote now nid obj s).1 nid =
      some { nb with notes := mkNote now nid obj :: nb.notes } := by
  unfold findNotebook at h ⊢
  unfold postNote
  exact find?_unshiftNote s.notebooks nid (mkNote now nid obj) nb h

theorem renameInList_snd (l : List Notebook) (nid name : String) (nb : Notebook)
    (h : l.find? (fun b => b.id == nid) = some nb) :
    (renameInList l nid name).2 = some { nb with name := name } := by
  induction l with
  | nil => simp at h
  | cons a t ih =>
    by_cases ha : (a.id == nid) = true
    · have hnb : nb = a := by
        rw [List.find?_cons_of_pos (p := fun b => b.id == nid) t ha] at h
        exact (Option.some_inj.mp h).symm
      unfold renameInList
      rw [if_pos ha, hnb]
    · rw [List.find?_cons_of_neg (p := fun b => b.id == nid) t ha] at h
      unfold renameInList
      rw [if_neg ha]
      exact ih h

theorem find?_renameInList (l : List Notebook) (nid name : String) (nb : Notebook)
    (h : l.find? (fun b => b.id == nid) = some nb) :
    (renameInList l nid name).1.find? (fun b => b.id == nid) =
      some { nb with name := name } := by
  induction l with
  | nil => simp at h
  | cons a t ih =>
    by_cases ha : (a.id == nid) = true
    · have hnb : nb = a := by
        rw [List.find?_cons_of_pos (p := fun b => b.id == nid) t ha] at h
        exact (Option.some_inj.mp h).symm
      unfold renameInList
      rw [if_pos ha, hnb]
      exact List.find?_cons_of_pos _ (by simpa using ha)
    · rw [List.find?_cons_of_neg (p := fun b => b.id == nid) t ha] at h
      unfold renameInList
      rw [if_neg ha]
      simp only
      rw [List.find?_cons_of_neg (p := fun b : Notebook => b.id == nid) _ ha]
      exact ih h

theorem forall2_self (R : α → α → Prop) (h : ∀ a, R a a) :
    ∀ l : List α, List.Forall₂ R l l := by
  intro l
  induction l with
  | nil => exact List.Forall₂.nil
  | cons a t ih => exact List.Forall₂.cons (h a) ih

theorem renameInList_forall2 (l : List Notebook) (nid name : String) :
    List.Forall₂
      (fun b' b => b' = b ∨ (b.id = nid ∧ b' = { b with name := name }))
      (renameInList l nid name).1 l := by
  induction l with
  | nil => exact List.Forall₂.nil
  | cons a t ih =>
    by_cases ha : (a.id == nid) = true
    · unfold renameInList
      rw [if_pos ha]
      exact List.Forall₂.cons (Or.inr ⟨by simpa using ha, rfl⟩)
        (forall2_self (fun b' b => b' = b ∨ (b.id = nid ∧ b' = { b with name := name })) (fun b => Or.inl rfl) t)
    · unfold renameInList
      rw [if_neg ha]
      exact List.Forall₂.cons (Or.inl rfl) ih

theorem find?_setNotes (l : List Notebook) (nid : String) (notes : List Note)
    (nb : Notebook) (h : l.find? (fun b => b.id == nid) = some nb) :
    (setNotes l nid notes).find? (fun b => b.id == nid) =
      some { nb with notes := notes } := by
  induction l with
  | nil => simp at h
  | cons a t ih =>
    by_cases ha : (a.id == nid) = true
    · have hnb : nb = a := by
        rw [List.find?_cons_of_pos (p := fun b => b.id == nid) t ha] at h
        exact (Option.some_inj.mp h).symm
      unfold setNotes
      rw [if_pos ha, hnb]
      exact List.find?_cons_of_pos _ (by simpa using ha)
    · rw [List.find?_cons_of_neg (p := fun b => b.id == nid) t ha] at h
      unfold setNotes
      rw [if_neg ha]
      rw [List.find?_cons_of_neg (p := fun b : Notebook => b.id == nid) _ ha]
      exact ih h

theorem assignInNotes_none (notes : List Note) (nid : String) (p : NotePatch)
    (h : notes.find? (fun m => m.id == nid) = none) :
    assignInNotes notes nid p = none := by
  induction notes with
  | nil => rfl
  | cons n rest ih =>
    have hn : ¬ (n.id == nid) = true := by
      intro hx
      rw [List.find?_cons_of_pos (p := fun m : Note => m.id == nid) rest hx] at h
      exact Option.noConfusion h
    rw [List.find?_cons_of_neg (p := fun m : Note => m.id == nid) rest hn] at h
    unfold assignInNotes
    rw [if_neg hn, ih h]

theorem assignInNotes_some (notes : List Note) (nid : String) (p : NotePatch) (n : Note)
    (h : notes.find? (fun m => m.id == nid) = some n) :
    ∃ l, assignInNotes notes nid p = some (l, assignNote n p) := by
  induction notes with
  | nil => simp at h
  | cons m rest ih =>
    by_cases hm : (m.id == nid) = true
    · have hn : n = m := by
        rw [List.find?_cons_of_pos (p := fun b : Note => b.id == nid) rest hm] at h
        exact (Option.some_inj.mp h).symm
      refine ⟨assignNote m p :: rest, ?_⟩
      unfold assignInNotes
      rw [if_pos hm, hn]
    · rw [List.find?_cons_of_neg (p := fun b : Note => b.id == nid) rest hm] at h
      obtain ⟨l, hl⟩ := ih h
      refine ⟨m :: l, ?_⟩
      unfold assignInNotes
      rw [if_neg hm, hl]

theorem assignInNotes_forall2 (nid : String) (p : NotePatch) :
    ∀ (notes l : List Note) (m : Note), assignInNotes notes nid p = some (l, m) →
      List.Forall₂
        (fun m' m0 => m' = m0 ∨ (m0.id = nid ∧ m' = assignNote m0 p)) l notes := by
  intro notes
  induction notes with
  | nil => intro l m h; exact Option.noConfusion h
  | cons n rest ih =>
    intro l m h
    by_cases hn : (n.id == nid) = true
    · unfold assignInNotes at h
      rw [if_pos hn] at h
      obtain ⟨h1, _⟩ := Prod.mk.injEq .. ▸ Option.some_inj.mp h
      subst h1
      exact List.Forall₂.cons (Or.inr ⟨by simpa using hn, rfl⟩)
        (forall2_self
          (fun m' m0 => m' = m0 ∨ (m0.id = nid ∧ m' = assignNote m0 p))
          (fun m0 => Or.inl rfl) rest)
    · unfold assignInNotes at h
      rw [if_neg hn] at h
      rcases hr : assignInNotes rest nid p with _ | r
      · rw [hr] at h; exact Option.noConfusion h
      · rw [hr] at h
        obtain ⟨h1, h2⟩ := Prod.mk.injEq .. ▸ Option.some_inj.mp h
        subst h1
        exact List.Forall₂.cons (Or.inl rfl) (ih r.1 r.2 hr)

theorem assignInNbs_snd (nid : String) (p : NotePatch) :
    ∀ (nbs : List Notebook) (n : Note), findNoteInNbs nbs nid = some n →
      (assignInNbs nbs nid p).2 = some (assignNote n p) := by
  intro nbs
  induction nbs with
  | nil => intro n h; exact Option.noConfusion h
  | cons nb rest ih =>
    intro n h
    rcases hfind : nb.notes.find? (fun m => m.id == nid) with _ | n0
    · have hrest : findNoteInNbs rest nid = some n := by
        unfold findNoteInNbs at h
        rw [hfind] at h
        exact h
      unfold assignInNbs
      rw [assignInNotes_none nb.notes nid p hfind]
      exact ih n hrest
    · have hn : n0 = n := by
        unfold findNoteInNbs at h
        rw [hfind] at h
        exact Option.some_inj.mp h
      obtain ⟨l, hl⟩ := assignInNotes_some nb.notes nid p n0 hfind
      unfold assignInNbs
      rw [hl, hn]

theorem assignInNbs_forall2 (nid : String) (p : NotePatch) (nbs : List Notebook) :
    List.Forall₂
      (fun nb' nb => nb'.id = nb.id ∧ nb'.name = nb.name ∧
        List.Forall₂
          (fun m' m0 => m' = m0 ∨ (m0.id = nid ∧ m' = assignNote m0 p))
          nb'.notes nb.notes)
      (assignInNbs nbs nid p).1 nbs := by
  induction nbs with
  | nil => exact List.Forall₂.nil
  | cons nb rest ih =>
    rcases hr : assignInNotes nb.notes nid p with _ | r
    · unfold assignInNbs
      rw [hr]
      refine List.Forall₂.cons ⟨rfl, rfl, ?_⟩ ih
      exact forall2_self
        (fun m' m0 => m' = m0 ∨ (m0.id = nid ∧ m' = assignNote m0 p))
        (fun m0 => Or.inl rfl) nb.notes
    · unfold assignInNbs
      rw [hr]
      refine List.Forall₂.cons ⟨rfl, rfl, assignInNotes_forall2 nid p nb.notes r.1 r.2 hr⟩ ?_
      exact forall2_self _
        (fun b => ⟨rfl, rfl,
          forall2_self
            (fun m' m0 => m' = m0 ∨ (m0.id = nid ∧ m' = assignNote m0 p))
            (fun m0 => Or.inl rfl) b.notes⟩) rest

/-! ### Preservation of the notebook-note link invariant -/

theorem linked_postNotebook (now : Nat) (name : String) (s : Store)
    (h : notesLinked s) : notesLinked (postNotebook now name s).1 := by
  intro nb hnb n hn
  unfold postNotebook at hnb
  simp only at hnb
  rcases List.mem_append.mp hnb with h1 | h1
  · exact h nb h1 n hn
  · rw [List.mem_singleton.mp h1] at hn
    exact absurd hn (List.not_mem_nil n)

theorem linked_unshiftNote (nid : String) (n : Note) (hn : n.notebookId = nid) :
    ∀ l : List Notebook, (∀ nb ∈ l, ∀ m ∈ nb.notes, m.notebookId = nb.id) →
      ∀ nb ∈ unshiftNote l nid n, ∀ m ∈ nb.notes, m.notebookId = nb.id := by
  intro l
  induction l with
  | nil => intro _ nb hnb; exact absurd hnb (List.not_mem_nil nb)
  | cons a t ih =>
    intro h nb hnb m hm
    by_cases ha : (a.id == nid) = true
    · unfold unshiftNote at hnb
      rw [if_pos ha] at hnb
      rcases List.mem_cons.mp hnb with h1 | h1
      · have ha' : a.id = nid := by simpa using ha
        rw [h1] at hm
        rcases List.mem_cons.mp hm with h2 | h2
        · rw [h1, h2, hn]
          exact ha'.symm
        · rw [h1]
          exact h a (List.mem_cons_self a t) m h2
      · exact h nb (List.mem_cons_of_mem a h1) m hm
    · unfold unshiftNote at hnb
      rw [if_neg ha] at hnb
      rcases List.mem_cons.mp hnb with h1 | h1
      · rw [h1]
        exact h a (List.mem_cons_self a t) m (h1 ▸ hm)
      · exact ih (fun b hb => h b (List.mem_cons_of_mem a hb)) nb h1 m hm

theorem linked_postNote (now : Nat) (nid : String) (obj : NoteFields) (s : Store)
    (h : notesLinked s) : notesLinked (postNote now nid obj s).1 := by
  intro nb hnb n hn
  unfold postNote at hnb
  exact linked_unshiftNote nid (mkNote now nid obj) rfl s.notebooks h nb hnb n hn

theorem linked_renameInList (nid name : String) :
    ∀ l : List Notebook, (∀ nb ∈ l, ∀ m ∈ nb.notes, m.notebookId = nb.id) →
      ∀ nb ∈ (renameInList l nid name).1, ∀ m ∈ nb.notes, m.notebookId = nb.id := by
  intro l
  induction l with
  | nil => intro _ nb hnb; exact absurd hnb (List.not_mem_nil nb)
  | cons a t ih =>
    intro h nb hnb m hm
    by_cases ha : (a.id == nid) = true
    · unfold renameInList at hnb
      rw [if_pos ha] at hnb
      rcases List.mem_cons.mp hnb with h1 | h1
      · have hm' : m ∈ a.notes := by rw [h1] at hm; exact hm
        rw [h1]
        exact h a (List.mem_cons_self a t) m hm'
      · exact h nb (List.mem_cons_of_mem a h1) m hm
    · unfold renameInList at hnb
      rw [if_neg ha] at hnb
      rcases List.mem_cons.mp hnb with h1 | h1
      · rw [h1]
        exact h a (List.mem_cons_self a t) m (h1 ▸ hm)
      · exact ih (fun b hb => h b (List.mem_cons_of_mem a hb)) nb h1 m hm

theorem linked_updateNotebook (nid name : String) (s : Store)
    (h : notesLinked s) : notesLinked (updateNotebook nid name s).1 := by
  intro nb hnb n hn
  unfold updateNotebook at hnb
  exact linked_renameInList nid name s.notebooks h nb hnb n hn

theorem assignInNotes_notebookId (nid : String) (p : NotePatch) :
    ∀ (notes l : List Note) (x : Note), assignInNotes notes nid p = some (l, x) →
      ∀ m ∈ l, ∃ m0 ∈ notes, m.notebookId = m0.notebookId := by
  intro notes
  induction notes with
  | nil => intro l x h; exact Option.noConfusion h
  | cons n rest ih =>
    intro l x h m hm
    by_cases hn : (n.id == nid) = true
    · unfold assignInNotes at h
      rw [if_pos hn] at h
      obtain ⟨h1, _⟩ := Prod.mk.injEq .. ▸ Option.some_inj.mp h
      rw [← h1] at hm
      rcases List.mem_cons.mp hm with h2 | h2
      · exact ⟨n, List.mem_cons_self n rest, by rw [h2]; rfl⟩
      · exact ⟨m, List.mem_cons_of_mem n h2, rfl⟩
    · unfold assignInNotes at h
      rw [if_neg hn] at h
      rcases hr : assignInNotes rest nid p with _ | r
      · rw [hr] at h; exact Option.noConfusion h
      · rw [hr] at h
        obtain ⟨h1, _⟩ := Prod.mk.injEq .. ▸ Option.some_inj.mp h
        rw [← h1] at hm
        rcases List.mem_cons.mp hm with h2 | h2
        · exact ⟨n, List.mem_cons_self n rest, by rw [h2]⟩
        · obtain ⟨m0, hm0, he⟩ := ih r.1 r.2 hr m h2
          exact ⟨m0, List.mem_cons_of_mem n hm0, he⟩

theorem linked_assignInNbs (nid : String) (p : NotePatch) :
    ∀ l : List Notebook, (∀ nb ∈ l, ∀ m ∈ nb.notes, m.notebookId = nb.id) →
      ∀ nb ∈ (assignInNbs l nid p).1, ∀ m ∈ nb.notes, m.notebookId = nb.id := by
  intro l
  induction l with
  | nil => intro _ nb hnb; exact absurd hnb (List.not_mem_nil nb)
  | cons a t ih =>
    intro h nb hnb m hm
    rcases hr : assignInNotes a.notes nid p with _ | r
    · unfold assignInNbs at hnb
      rw [hr] at hnb
      rcases List.mem_cons.mp hnb with h1 | h1
      · rw [h1]
        exact h a (List.mem_cons_self a t) m (h1 ▸ hm)
      · exact ih (fun b hb => h b (List.mem_cons_of_mem a hb)) nb h1 m hm
    · unfold assignInNbs at hnb
      rw [hr] at hnb
      rcases List.mem_cons.mp hnb with h1 | h1
      · rw [h1]
        have hm' : m ∈ r.1 := by
          have : nb.notes = r.1 := by rw [h1]
          rw [← this]; exact hm
        obtain ⟨m0, hm0, he⟩ := assignInNotes_notebookId nid p a.notes r.1 r.2 hr m hm'
        rw [he]
        exact h a (List.mem_cons_self a t) m0 hm0
      · exact h nb (List.mem_cons_of_mem a h1) m hm

theorem linked_updateNote (nid : String) (p : NotePatch) (s : Store)
    (h : notesLinked s) : notesLinked (updateNote nid p s).1 := by
  intro nb hnb n hn
  unfold updateNote at hnb
  exact linked_assignInNbs nid p s.notebooks h nb hnb n hn

theorem linked_deleteNotebook (nid : String) (s : Store)
    (h : notesLinked s) : notesLinked (deleteNotebook nid s) := by
  intro nb hnb n hn
  unfold deleteNotebook at hnb
  exact h nb (spliceRemove1_subset _ _ hnb) n hn

theorem linked_setNotes (nid : String) (notes : List Note)
    (hnotes : ∀ m ∈ notes, m.notebookId = nid) :
    ∀ l : List Notebook, (∀ nb ∈ l, ∀ m ∈ nb.notes, m.notebookId = nb.id) →
      ∀ nb ∈ setNotes l nid notes, ∀ m ∈ nb.notes, m.notebookId = nb.id := by
  intro l
  induction l with
  | nil => intro _ nb hnb; exact absurd hnb (List.not_mem_nil nb)
  | cons a t ih =>
    intro h nb hnb m hm
    by_cases ha : (a.id == nid) = true
    · unfold setNotes at hnb
      rw [if_pos ha] at hnb
      rcases List.mem_cons.mp hnb with h1 | h1
      · have hm' : m ∈ notes := by
          have : nb.notes = notes := by rw [h1]
          rw [← this]; exact hm
        have ha' : a.id = nid := by simpa using ha
        rw [h1]
        show m.notebookId = a.id
        rw [hnotes m hm']
        exact ha'.symm
      · exact h nb (List.mem_cons_of_mem a h1) m hm
    · unfold setNotes at hnb
      rw [if_neg ha] at hnb
      rcases List.mem_cons.mp hnb with h1 | h1
      · rw [h1]
        exact h a (List.mem_cons_self a t) m (h1 ▸ hm)
      · exact ih (fun b hb => h b (List.mem_cons_of_mem a hb)) nb h1 m hm

theorem linked_deleteNote (nbid nid : String) (s : Store)
    (h : notesLinked s) : notesLinked (deleteNote nbid nid s).1 := by
  unfold deleteNote
  rcases hf : findNotebook s nbid with _ | nb
  · exact h
  · simp only
    have hmem : nb ∈ s.notebooks := List.mem_of_find?_eq_some hf
    have hid : nb.id = nbid := by
      simpa using List.find?_some hf
    intro b hb n hn
    refine linked_setNotes nbid (spliceRemove1 nb.notes (findNoteIndex nb nid))
      ?_ s.notebooks h b hb n hn
    intro m hm
    rw [← hid]
    exact h nb hmem m (spliceRemove1_subset _ _ hm)

theorem linked_applyOp (op : Op) (s : Store) (h : notesLinked s) :
    notesLinked (applyOp s op) := by
  cases op with
  | postNotebookOp now name => exact linked_postNotebook now name s h
  | postNoteOp now nid obj => exact linked_postNote now nid obj s h
  | updateNotebookOp nid name => exact linked_updateNotebook nid name s h
  | updateNoteOp nid p => exact linked_updateNote nid p s h
  | deleteNotebookOp nid => exact linked_deleteNotebook nid s h
  | deleteNoteOp nbid nid => exact linked_deleteNote nbid nid s h

/-! ### Serialization round trip -/

theorem decodeNote_encodeNote (n : Note) : decodeNote (encodeNote n) = some n := rfl

theorem decodeNotes_map (l : List Note) :
    decodeNotes (l.map encodeNote) = some l := by
  induction l with
  | nil => rfl
  | cons n rest ih =>
    unfold decodeNotes
    rw [List.map_cons]
    simp only [decodeNote_encodeNote]
    rw [ih]

theorem decodeNotebook_encodeNotebook (nb : Notebook) :
    decodeNotebook (encodeNotebook nb) = some nb := by
  have hred : decodeNotebook (encodeNotebook nb) =
      (decodeNotes (nb.notes.map encodeNote)).map
        (fun l => { id := nb.id, name := nb.name, notes := l }) := rfl
  rw [hred, decodeNotes_map]
  rfl

theorem decodeNotebooks_map (l : List Notebook) :
    decodeNotebooks (l.map encodeNotebook) = some l := by
  induction l with
  | nil => rfl
  | cons nb rest ih =>
    unfold decodeNotebooks
    rw [List.map_cons]
    simp only [decodeNotebook_encodeNotebook]
    rw [ih]

theorem decodeStore_encodeStore (s : Store) :
    decodeStore (encodeStore s) = some s := by
  have hred : decodeStore (encodeStore s) =
      (decodeNotebooks (s.notebooks.map encodeNotebook)).map Store.mk := rfl
  rw [hred, decodeNotebooks_map]
  rfl

/-! ### The claims -/

/-- C1, counterexample: on a store holding one notebook with id `"1"`,
`db.delete.notebook("2")` is not a no-op — `findIndex` yields `-1` and
`splice(-1, 1)` removes the last notebook. -/
theorem delete_notebook_absent_not_noop :
    deleteNotebook "2" ⟨[⟨"1", "Work", []⟩]⟩ ≠ (⟨[⟨"1", "Work", []⟩]⟩ : Store) := by
  decide

/-- C1, amended: for every store and every notebookId matching no notebook,
`db.delete.notebook(notebookId)` removes the LAST notebook of the store
(`splice(-1, 1)` counts from the end); it is a no-op only when the store has
no notebooks at all (`dropLast [] = []`). -/
theorem delete_notebook_absent_drops_last (s : Store) (nid : String)
    (h : findNotebook s nid = none) :
    deleteNotebook nid s = ⟨s.notebooks.dropLast⟩ := by
  unfold deleteNotebook
  rw [findNotebookIndex_of_absent s nid h, spliceRemove1_neg_one]

/-- C1, witness for the amended theorem at a concrete store. -/
theorem delete_notebook_absent_drops_last_witness :
    findNotebook ⟨[⟨"1", "Work", []⟩]⟩ "2" = none ∧
    deleteNotebook "2" ⟨[⟨"1", "Work", []⟩]⟩ =
      ⟨(⟨[⟨"1", "Work", []⟩]⟩ : Store).notebooks.dropLast⟩ :=
  ⟨by decide, delete_notebook_absent_drops_last ⟨[⟨"1", "Work", []⟩]⟩ "2" (by decide)⟩

/-- C2, counterexample: `db.post.note` on an absent notebookId leaves the
store unchanged but does NOT return undefined — the function unconditionally
returns the note object it built. -/
theorem post_note_absent_returns_built_note :
    (postNote 5 "2" ⟨"t", "x"⟩ ⟨[⟨"1", "Work", []⟩]⟩).1 = (⟨[⟨"1", "Work", []⟩]⟩ : Store) ∧
    (postNote 5 "2" ⟨"t", "x"⟩ ⟨[⟨"1", "Work", []⟩]⟩).2 ≠ none := by
  decide

/-- C2, amended: for every store and every notebookId matching no notebook,
`db.post.note(notebookId, object)` leaves the store unchanged (optional
chaining skips the `unshift`) but still returns the freshly built Note
(with generated id, the denormalized notebookId, and the timestamp), not
undefined. -/
theorem post_note_absent_silent_noop (now : Nat) (nid : String)
    (obj : NoteFields) (s : Store) (h : findNotebook s nid = none) :
    (postNote now nid obj s).1 = s ∧
    (postNote now nid obj s).2 = some (mkNote now nid obj) := by
  refine ⟨?_, rfl⟩
  have habs : ∀ nb ∈ s.notebooks, ¬ nb.id = nid := by
    intro nb hnb
    have hx := List.find?_eq_none.mp h nb hnb
    simpa using hx
  unfold postNote
  simp only
  rw [unshiftNote_absent s.notebooks nid _ habs]

/-- C2, witness for the amended theorem at a concrete store. -/
theorem post_note_absent_silent_noop_witness :
    findNotebook ⟨[⟨"1", "Work", []⟩]⟩ "2" = none ∧
    ((postNote 5 "2" ⟨"t", "x"⟩ ⟨[⟨"1", "Work", []⟩]⟩).1 = (⟨[⟨"1", "Work", []⟩]⟩ : Store) ∧
      (postNote 5 "2" ⟨"t", "x"⟩ ⟨[⟨"1", "Work", []⟩]⟩).2 = some (mkNote 5 "2" ⟨"t", "x"⟩)) :=
  ⟨by decide, post_note_absent_silent_noop 5 "2" ⟨"t", "x"⟩ ⟨[⟨"1", "Work", []⟩]⟩ (by decide)⟩

/-- C3: creating note A then note B in the same notebook prepends each, so
`db.get.note` lists B before A (most-recently-created first). -/
theorem post_note_prepends (tA tB : Nat) (A B : NoteFields) (nid : String)
    (s : Store) (nb : Notebook) (h : findNotebook s nid = some nb) :
    getNote (postNote tB nid B (postNote tA nid A s).1).1 nid =
      some (mkNote tB nid B :: mkNote tA nid A :: nb.notes) := by
  have h1 := findNotebook_postNote s tA nid A nb h
  have h2 := findNotebook_postNote (postNote tA nid A s).1 tB nid B _ h1
  unfold getNote
  rw [h2]
  rfl

/-- C3, witness at a concrete store. -/
theorem post_note_prepends_witness :
    findNotebook ⟨[⟨"1", "Work", []⟩]⟩ "1" = some ⟨"1", "Work", []⟩ ∧
    getNote (postNote 3 "1" ⟨"b", "xb"⟩
        (postNote 2 "1" ⟨"a", "xa"⟩ ⟨[⟨"1", "Work", []⟩]⟩).1).1 "1" =
      some (mkNote 3 "1" ⟨"b", "xb"⟩ :: mkNote 2 "1" ⟨"a", "xa"⟩ ::
        Notebook.notes ⟨"1", "Work", []⟩) :=
  ⟨by decide,
   post_note_prepends 2 3 ⟨"a", "xa"⟩ ⟨"b", "xb"⟩ "1" ⟨[⟨"1", "Work", []⟩]⟩
     ⟨"1", "Work", []⟩ (by decide)⟩

/-- C4: starting from the empty store, every sequence of db operations
(post.notebook, post.note, update.notebook, update.note, delete.notebook,
delete.note) preserves the invariant that each notebook's notes all carry
that notebook's id as their `notebookId`. -/
theorem db_ops_preserve_notesLinked (ops : List Op) : notesLinked (applyOps ops) := by
  unfold applyOps
  have h : ∀ s : Store, notesLinked s → notesLinked (List.foldl applyOp s ops) := by
    induction ops with
    | nil => intro s hs; exact hs
    | cons op rest ih =>
      intro s hs
      rw [List.foldl_cons]
      exact ih (applyOp s op) (linked_applyOp op s hs)
  exact h emptyStore (fun nb hnb => absurd hnb (List.not_mem_nil nb))

/-- C5: for every operation sequence applied from the empty store,
serializing the resulting store and deserializing it back succeeds and the
`get` operations on the reloaded store agree with those on the in-memory
store. -/
theorem store_serialization_roundtrip (ops : List Op) :
    ∃ s', decodeStore (encodeStore (applyOps ops)) = some s' ∧
      getNotebooks s' = getNotebooks (applyOps ops) ∧
      ∀ nid, getNote s' nid = getNote (applyOps ops) nid :=
  ⟨applyOps ops, decodeStore_encodeStore (applyOps ops), rfl, fun _ => rfl⟩

/-- C6, failing input: two `db.post.note` calls in the same millisecond
(`now = 7`) produce two distinct notes carrying the SAME generated id — the
timestamp-only `generateID` collides, contradicting the uniqueness contract
the spec states for IDs. -/
theorem same_millisecond_note_id_collision :
    ((postNote 7 "1" ⟨"a", "xa"⟩ ⟨[⟨"1", "Work", []⟩]⟩).2.map Note.id =
      (postNote 7 "1" ⟨"b", "xb"⟩
        (postNote 7 "1" ⟨"a", "xa"⟩ ⟨[⟨"1", "Work", []⟩]⟩).1).2.map Note.id) ∧
    (postNote 7 "1" ⟨"a", "xa"⟩ ⟨[⟨"1", "Work", []⟩]⟩).2 ≠
      (postNote 7 "1" ⟨"b", "xb"⟩
        (postNote 7 "1" ⟨"a", "xa"⟩ ⟨[⟨"1", "Work", []⟩]⟩).1).2 := by
  decide

/-- C7: `db.update.note(nid, {text: x})` on a store containing a note with
id nid returns that note with only `text` changed (id, notebookId, title,
postedOn preserved), and pointwise every notebook keeps its id and name and
every note is either untouched or is an nid-note with only its text
replaced. -/
theorem update_note_text_frame (s : Store) (nid x : String) (n : Note)
    (h : findNote s nid = some n) :
    (updateNote nid ⟨none, some x⟩ s).2 = some { n with text := x } ∧
    List.Forall₂
      (fun nb' nb => nb'.id = nb.id ∧ nb'.name = nb.name ∧
        List.Forall₂
          (fun m' m0 => m' = m0 ∨ (m0.id = nid ∧ m' = { m0 with text := x }))
          nb'.notes nb.notes)
      (updateNote nid ⟨none, some x⟩ s).1.notebooks s.notebooks :=
  ⟨assignInNbs_snd nid ⟨none, some x⟩ s.notebooks n h,
   assignInNbs_forall2 nid ⟨none, some x⟩ s.notebooks⟩

/-- C7, witness at a concrete store. -/
theorem update_note_text_frame_witness :
    findNote ⟨[⟨"1", "Work", [⟨"n1", "1", "T", "old", 3⟩]⟩]⟩ "n1" =
      some ⟨"n1", "1", "T", "old", 3⟩ ∧
    ((updateNote "n1" ⟨none, some "x"⟩
        ⟨[⟨"1", "Work", [⟨"n1", "1", "T", "old", 3⟩]⟩]⟩).2 =
      some { (⟨"n1", "1", "T", "old", 3⟩ : Note) with text := "x" } ∧
    List.Forall₂
      (fun nb' nb => nb'.id = nb.id ∧ nb'.name = nb.name ∧
        List.Forall₂
          (fun m' m0 => m' = m0 ∨ (m0.id = "n1" ∧ m' = { m0 with text := "x" }))
          nb'.notes nb.notes)
      (updateNote "n1" ⟨none, some "x"⟩
        ⟨[⟨"1", "Work", [⟨"n1", "1", "T", "old", 3⟩]⟩]⟩).1.notebooks
      (Store.notebooks ⟨[⟨"1", "Work", [⟨"n1", "1", "T", "old", 3⟩]⟩]⟩)) :=
  ⟨by decide,
   update_note_text_frame ⟨[⟨"1", "Work", [⟨"n1", "1", "T", "old", 3⟩]⟩]⟩ "n1" "x"
     ⟨"n1", "1", "T", "old", 3⟩ (by decide)⟩

/-- C8: `db.update.notebook(nid, name)` on a store containing a notebook
with id nid returns that notebook with the new name, a subsequent lookup by
nid sees the new name, and pointwise every other notebook (id, name, notes)
is unchanged. -/
theorem rename_notebook_frame (s : Store) (nid newName : String) (nb : Notebook)
    (h : findNotebook s nid = some nb) :
    (updateNotebook nid newName s).2 = some { nb with name := newName } ∧
    findNotebook (updateNotebook nid newName s).1 nid =
      some { nb with name := newName } ∧
    List.Forall₂
      (fun b' b => b' = b ∨ (b.id = nid ∧ b' = { b with name := newName }))
      (updateNotebook nid newName s).1.notebooks s.notebooks :=
  ⟨renameInList_snd s.notebooks nid newName nb h,
   find?_renameInList s.notebooks nid newName nb h,
   renameInList_forall2 s.notebooks nid newName⟩

/-- C8, witness at a concrete store with a second notebook. -/
theorem rename_notebook_frame_witness :
    findNotebook ⟨[⟨"1", "Work", []⟩, ⟨"2", "Home", []⟩]⟩ "1" =
      some ⟨"1", "Work", []⟩ ∧
    ((updateNotebook "1" "Job" ⟨[⟨"1", "Work", []⟩, ⟨"2", "Home", []⟩]⟩).2 =
      some { (⟨"1", "Work", []⟩ : Notebook) with name := "Job" } ∧
    findNotebook (updateNotebook "1" "Job"
        ⟨[⟨"1", "Work", []⟩, ⟨"2", "Home", []⟩]⟩).1 "1" =
      some { (⟨"1", "Work", []⟩ : Notebook) with name := "Job" } ∧
    List.Forall₂
      (fun b' b => b' = b ∨ (b.id = "1" ∧ b' = { b with name := "Job" }))
      (updateNotebook "1" "Job" ⟨[⟨"1", "Work", []⟩, ⟨"2", "Home", []⟩]⟩).1.notebooks
      (Store.notebooks ⟨[⟨"1", "Work", []⟩, ⟨"2", "Home", []⟩]⟩)) :=
  ⟨by decide,
   rename_notebook_frame ⟨[⟨"1", "Work", []⟩, ⟨"2", "Home", []⟩]⟩ "1" "Job"
     ⟨"1", "Work", []⟩ (by decide)⟩

/-- C9: `db.delete.note` on a notebook holding exactly one note with the
given id removes exactly that one: the returned remaining sequence is one
shorter, contains no note with that id, and is what the notebook now holds. -/
theorem delete_note_removes_exactly_one (s : Store) (nbid nid : String) (nb : Notebook)
    (h1 : findNotebook s nbid = some nb)
    (h2 : nb.notes.countP (fun m => m.id == nid) = 1) :
    ∃ l, (deleteNote nbid nid s).2 = some l ∧
      findNotebook (deleteNote nbid nid s).1 nbid = some { nb with notes := l } ∧
      l.length + 1 = nb.notes.length ∧
      ∀ m ∈ l, ¬ m.id = nid := by
  obtain ⟨hlen, hcnt⟩ := countP_removeFirst (fun m => m.id == nid) nb.notes h2
  have hdel : deleteNote nbid nid s =
      (⟨setNotes s.notebooks nbid (spliceRemove1 nb.notes (findNoteIndex nb nid))⟩,
        some (spliceRemove1 nb.notes (findNoteIndex nb nid))) := by
    unfold deleteNote
    rw [h1]
  refine ⟨spliceRemove1 nb.notes (findNoteIndex nb nid), ?_, ?_, hlen, ?_⟩
  · rw [hdel]
  · rw [hdel]
    exact find?_setNotes s.notebooks nbid _ nb h1
  · intro m hm
    have hx := List.countP_eq_zero.mp hcnt m hm
    simpa using hx

/-- C9, witness at a concrete two-note notebook. -/
theorem delete_note_removes_exactly_one_witness :
    findNotebook ⟨[⟨"1", "W", [⟨"n1", "1", "a", "xa", 1⟩, ⟨"n2", "1", "b", "xb", 2⟩]⟩]⟩ "1" =
      some ⟨"1", "W", [⟨"n1", "1", "a", "xa", 1⟩, ⟨"n2", "1", "b", "xb", 2⟩]⟩ ∧
    (Notebook.notes ⟨"1", "W", [⟨"n1", "1", "a", "xa", 1⟩, ⟨"n2", "1", "b", "xb", 2⟩]⟩).countP
      (fun m => m.id == "n1") = 1 ∧
    ∃ l, (deleteNote "1" "n1"
        ⟨[⟨"1", "W", [⟨"n1", "1", "a", "xa", 1⟩, ⟨"n2", "1", "b", "xb", 2⟩]⟩]⟩).2 = some l ∧
      findNotebook (deleteNote "1" "n1"
          ⟨[⟨"1", "W", [⟨"n1", "1", "a", "xa", 1⟩, ⟨"n2", "1", "b", "xb", 2⟩]⟩]⟩).1 "1" =
        some { (⟨"1", "W", [⟨"n1", "1", "a", "xa", 1⟩, ⟨"n2", "1", "b", "xb", 2⟩]⟩ : Notebook)
          with notes := l } ∧
      l.length + 1 =
        (Notebook.notes ⟨"1", "W", [⟨"n1", "1", "a", "xa", 1⟩, ⟨"n2", "1", "b", "xb", 2⟩]⟩).length ∧
      ∀ m ∈ l, ¬ m.id = "n1" :=
  ⟨by decide, by decide,
   delete_note_removes_exactly_one
     ⟨[⟨"1", "W", [⟨"n1", "1", "a", "xa", 1⟩, ⟨"n2", "1", "b", "xb", 2⟩]⟩]⟩ "1" "n1"
     ⟨"1", "W", [⟨"n1", "1", "a", "xa", 1⟩, ⟨"n2", "1", "b", "xb", 2⟩]⟩
     (by decide) (by decide)⟩

/-- C10: `db.delete.note` with an existing notebook whose notes are
non-empty and a noteId matching none of them removes the LAST (oldest) note
— `findIndex` gives `-1` and `splice(-1, 1)` drops the final element — and
returns the shortened sequence. -/
theorem delete_note_absent_removes_last (s : Store) (nbid nid : String) (nb : Notebook)
    (h1 : findNotebook s nbid = some nb)
    (h2 : nb.notes ≠ [])
    (h3 : ∀ m ∈ nb.notes, ¬ m.id = nid) :
    (deleteNote nbid nid s).2 = some nb.notes.dropLast ∧
    findNotebook (deleteNote nbid nid s).1 nbid =
      some { nb with notes := nb.notes.dropLast } ∧
    nb.notes.dropLast.length + 1 = nb.notes.length := by
  have hidx : findNoteIndex nb nid = -1 := by
    unfold findNoteIndex
    apply findIdxJS_of_all_false
    intro m hm
    simpa using h3 m hm
  have hsp : spliceRemove1 nb.notes (findNoteIndex nb nid) = nb.notes.dropLast := by
    rw [hidx, spliceRemove1_neg_one]
  have hdel0 : deleteNote nbid nid s =
      (⟨setNotes s.notebooks nbid (spliceRemove1 nb.notes (findNoteIndex nb nid))⟩,
        some (spliceRemove1 nb.notes (findNoteIndex nb nid))) := by
    unfold deleteNote
    rw [h1]
  have hdel : deleteNote nbid nid s =
      (⟨setNotes s.notebooks nbid nb.notes.dropLast⟩, some nb.notes.dropLast) := by
    rw [hdel0, hsp]
  refine ⟨?_, ?_, ?_⟩
  · rw [hdel]
  · rw [hdel]
    exact find?_setNotes s.notebooks nbid _ nb h1
  · rw [List.length_dropLast]
    have hpos : 0 < nb.notes.length := List.length_pos.mpr h2
    omega

/-- C10, witness at a concrete two-note notebook and an absent noteId. -/
theorem delete_note_absent_removes_last_witness :
    findNotebook ⟨[⟨"1", "W", [⟨"n1", "1", "a", "xa", 1⟩, ⟨"n2", "1", "b", "xb", 2⟩]⟩]⟩ "1" =
      some ⟨"1", "W", [⟨"n1", "1", "a", "xa", 1⟩, ⟨"n2", "1", "b", "xb", 2⟩]⟩ ∧
    ([⟨"n1", "1", "a", "xa", 1⟩, ⟨"n2", "1", "b", "xb", 2⟩] : List Note) ≠ [] ∧
    (∀ m ∈ ([⟨"n1", "1", "a", "xa", 1⟩, ⟨"n2", "1", "b", "xb", 2⟩] : List Note),
      ¬ m.id = "zz") ∧
    ((deleteNote "1" "zz"
        ⟨[⟨"1", "W", [⟨"n1", "1", "a", "xa", 1⟩, ⟨"n2", "1", "b", "xb", 2⟩]⟩]⟩).2 =
      some (Notebook.notes
        ⟨"1", "W", [⟨"n1", "1", "a", "xa", 1⟩, ⟨"n2", "1", "b", "xb", 2⟩]⟩).dropLast ∧
    findNotebook (deleteNote "1" "zz"
        ⟨[⟨"1", "W", [⟨"n1", "1", "a", "xa", 1⟩, ⟨"n2", "1", "b", "xb", 2⟩]⟩]⟩).1 "1" =
      some { (⟨"1", "W", [⟨"n1", "1", "a", "xa", 1⟩, ⟨"n2", "1", "b", "xb", 2⟩]⟩ : Notebook)
        with notes := (Notebook.notes
          ⟨"1", "W", [⟨"n1", "1", "a", "xa", 1⟩, ⟨"n2", "1", "b", "xb", 2⟩]⟩).dropLast } ∧
    (Notebook.notes
      ⟨"1", "W", [⟨"n1", "1", "a", "xa", 1⟩, ⟨"n2", "1", "b", "xb", 2⟩]⟩).dropLast.length + 1 =
      (Notebook.notes
        ⟨"1", "W", [⟨"n1", "1", "a", "xa", 1⟩, ⟨"n2", "1", "b", "xb", 2⟩]⟩).length) :=
  ⟨by decide, by decide, by decide,
   delete_note_absent_removes_last
     ⟨[⟨"1", "W", [⟨"n1", "1", "a", "xa", 1⟩, ⟨"n2", "1", "b", "xb", 2⟩]⟩]⟩ "1" "zz"
     ⟨"1", "W", [⟨"n1", "1", "a", "xa", 1⟩, ⟨"n2", "1", "b", "xb", 2⟩]⟩
     (by decide) (by decide) (by decide)⟩

end NoteKeeper
